import Mathlib

/-!
Verification development for the MuMiN dataset-assembly pipeline
(`mumin/dataset.py` and `mumin/article.py`).

Tables (pandas `DataFrame`s) are modelled as Lean lists of row structures;
a row's positional index is its position in the list.  Relevance scores
(floats compared against the literal thresholds `0.8`/`0.75`) are modelled
as rationals; the claims about them are purely order-theoretic.
Dictionaries keyed by strings or string triples are modelled as functions
into `Option`.  Fallible code is modelled with `Except String`.
-/

namespace Mumin

open List (Sublist)

open scoped List

/-- Positions (offset by `j`) of every occurrence of `m` in a key list.  This is
the row-position side of a pandas `reset_index` + `merge` equi-join: the merge
attaches, to a reference value `m`, every position of the target table whose
key column equals `m`. -/

def positionsFrom {α : Type} [DecidableEq α] (j : Nat) (m : α) : List α → List Nat
  | [] => []
  | k :: ks => (if k = m then [j] else []) ++ positionsFrom (j + 1) m ks

/-- First position of `m` in a key list (the unique position when the keys are
duplicate-free). -/

def firstPos {α : Type} [DecidableEq α] (m : α) : List α → Option Nat
  | [] => none
  | k :: ks => if k = m then some 0 else (firstPos m ks).map (· + 1)

/-! ## Filename grammar (`MuminDataset._load_dataset`, `dataset.py` lines 218-238)

A raw file stem is classified by `fname.split('_')`: one token is a node
file, more than two tokens is a relation file `(splits[0],
'_'.join(splits[1:-1]), splits[-1])`, and anything else (exactly two
tokens) raises `RuntimeError`. -/

/-- Python `str.split('_')` on a character list: always returns at least one
(possibly empty) token, and one extra token per separator character. -/

def splitUnderscore : List Char → List (List Char)
  | [] => [[]]
  | c :: cs =>
    let r := splitUnderscore cs
    if c = '_' then [] :: r
    else (c :: r.headD []) :: r.tail

/-- Python `'_'.join`. -/

def joinUnderscore : List String → String
  | [] => ""
  | [s] => s
  | s :: rest => s ++ "_" ++ joinUnderscore rest

/-- The token list of a file stem, as produced by `fname.split('_')`. -/

def fnameSplits (fname : String) : List String :=
  (splitUnderscore fname.data).map (fun l => String.mk l)

/-- Classification of a raw dataset file. -/

inductive FileClass where
  | node (name : String)
  | rel (src : String) (lbl : String) (tgt : String)
deriving DecidableEq, Repr

/-- The filename classification of `_load_dataset` (lines 220-238): one token
is a node file named by the stem, more than two tokens is a relation file, and
any other count raises `RuntimeError`. -/

def classifyFname (fname : String) : Except String FileClass :=
  if (fnameSplits fname).length = 1 then
    Except.ok (FileClass.node fname)
  else if 2 < (fnameSplits fname).length then
    Except.ok (FileClass.rel ((fnameSplits fname).headD "")
      (joinUnderscore (((fnameSplits fname).drop 1).dropLast))
      ((fnameSplits fname).getLastD ""))
  else
    Except.error ("Could not recognise " ++ fname ++ " as a node or relation.")

/-! ## Load-time validation (`_load_dataset`, `dataset.py` lines 240-254)

After the raw files are read, the loader checks that a `claim` node table
and a `tweet` node table are present and that the tweet table's `tweet_id`
column has no pandas-`duplicated` entry; each violation raises
`RuntimeError`.  No check at all is made on the user table. -/

/-- The values marked by pandas `Series.duplicated()`: every occurrence that
has an earlier equal occurrence. -/

def duplicatedFrom (seen : List Nat) : List Nat → List Nat
  | [] => []
  | x :: xs => (if x ∈ seen then [x] else []) ++ duplicatedFrom (x :: seen) xs

/-- The in-memory tables relevant to the load-time checks: the set of node
table names, the tweet table's `tweet_id` column and the user table's
`user_id` column. -/

structure LoadedData where
  nodeNames : List String
  tweetIds : List Nat
  userIds : List Nat
deriving DecidableEq, Repr

/-- The validation performed at the end of `_load_dataset` (lines 240-254). -/

def loadValidate (d : LoadedData) : Except String Unit :=
  if "claim" ∉ d.nodeNames then
    Except.error "No claims are present in the zipfile!"
  else if "tweet" ∉ d.nodeNames then
    Except.error "No tweets are present in the zipfile!"
  else if duplicatedFrom [] d.tweetIds ≠ [] then
    Except.error ("The tweet IDs " ++ toString (duplicatedFrom [] d.tweetIds)
      ++ " are duplicate in the dataset!")
  else
    Except.ok ()

/-! ## Relation extraction (`_extract_relations`, `dataset.py` lines 500-536)

Each relation table is derived by: selecting the source table's reference
column, `dropna`, optionally exploding a per-row list of references,
`reset_index` (which recovers each surviving row's position in the source
table, since `dropna`/`explode`/`applymap` preserve the original index
labels), then an inner `merge` against the target table's natural-key
column with the target positions attached the same way.  The merge output
keeps the left rows in order with the matching right rows in order. -/

/-- One row of a derived relation table: a (source position, target
position) pair. -/
structure RelRow where
  src : Nat
  tgt : Nat
deriving DecidableEq, Repr

/-- A tweet row as used by relation extraction: the natural key `tweet_id`,
the optional `author_id` reference and the optional `entities.mentions`
list (already mapped through `int(dct['id'])` as the code's `applymap`
does). -/
structure TweetRec where
  tweet_id : Nat
  author_id : Option Nat
  mentions : Option (List Nat)
deriving DecidableEq, Repr

/-- A user row as seen by relation extraction: the natural key `user_id`. -/
structure UserRec where
  user_id : Nat
deriving DecidableEq, Repr

/-- The rows contributed by one exploded tweet (position `i`, mention list
`ms`): for each reference, one output row per matching position of the user
key column. -/
def mentionRows (keys : List Nat) (i : Nat) : List Nat → List RelRow
  | [] => []
  | m :: ms => (positionsFrom 0 m keys).map (fun j => RelRow.mk i j) ++ mentionRows keys i ms

/-- `(:Tweet)-[:MENTIONS]->(:User)` extraction (lines 518-536), walking the
tweet table from position `i`: rows whose mention column is absent are
dropped (`dropna`), the rest are exploded and joined against the user key
column. -/
def extractMentionsFrom (keys : List Nat) : Nat → List TweetRec → List RelRow
  | _, [] => []
  | i, t :: ts =>
    (match t.mentions with
     | none => []
     | some ms => mentionRows keys i ms) ++ extractMentionsFrom keys (i + 1) ts

def extractMentions (tweets : List TweetRec) (users : List UserRec) : List RelRow :=
  extractMentionsFrom (users.map UserRec.user_id) 0 tweets

/-- `(:User)-[:POSTED]->(:Tweet)` extraction (lines 503-516): the tweet
table's `author_id` column is `dropna`-ed and joined against the user key
column; the emitted rows are (user position, tweet position). -/
def extractPostedFrom (keys : List Nat) : Nat → List TweetRec → List RelRow
  | _, [] => []
  | i, t :: ts =>
    (match t.author_id with
     | none => []
     | some a => (positionsFrom 0 a keys).map (fun j => RelRow.mk j i)) ++
      extractPostedFrom keys (i + 1) ts

def extractPosted (tweets : List TweetRec) (users : List UserRec) : List RelRow :=
  extractPostedFrom (users.map UserRec.user_id) 0 tweets

/-- Spec-side description of the mention join (for the refinement theorem;
it follows the spec's words, not the code): each reference value that
resolves against the user natural-key column contributes exactly the pair
(tweet position, position of the matching user), and an unresolved
reference contributes nothing. -/
def specMentionRows (keys : List Nat) (i : Nat) : List Nat → List RelRow
  | [] => []
  | m :: ms =>
    (match firstPos m keys with
     | some j => [RelRow.mk i j]
     | none => []) ++ specMentionRows keys i ms

def specMentionsFrom (keys : List Nat) : Nat → List TweetRec → List RelRow
  | _, [] => []
  | i, t :: ts =>
    (match t.mentions with
     | none => []
     | some ms => specMentionRows keys i ms) ++ specMentionsFrom keys (i + 1) ts

/-- Spec-side tweet-mentions-user table. -/
def mentionsSpec (tweets : List TweetRec) (users : List UserRec) : List RelRow :=
  specMentionsFrom (users.map UserRec.user_id) 0 tweets

/-- Spec-side description of the posted join, analogous to `mentionsSpec`. -/
def specPostedFrom (keys : List Nat) : Nat → List TweetRec → List RelRow
  | _, [] => []
  | i, t :: ts =>
    (match t.author_id with
     | none => []
     | some a =>
       match firstPos a keys with
       | some j => [RelRow.mk j i]
       | none => []) ++ specPostedFrom keys (i + 1) ts

def postedSpec (tweets : List TweetRec) (users : List UserRec) : List RelRow :=
  specPostedFrom (users.map UserRec.user_id) 0 tweets

/-! ## Subgraph filtering (`_shrink_dataset`, `dataset.py` lines 256-325)

At this point of the pipeline the relation tables come straight from the
raw CSV files: their `src`/`tgt` columns hold **natural keys** (tweet IDs,
claim IDs, user IDs, article IDs), which is exactly how `_shrink_dataset`
uses them (`isin` tests against `tweet_id`/`id`/`user_id` columns).  The
seed relations additionally carry a `relevance` score. -/

/-- A scored relation row (`tweet_discusses_claim` / `article_discusses_claim`). -/
structure ScoredRel where
  src : Nat
  tgt : Nat
  relevance : ℚ
deriving DecidableEq, Repr

/-- An unscored relation row, `src`/`tgt` holding natural keys. -/
structure KeyRel where
  src : Nat
  tgt : Nat
deriving DecidableEq, Repr

structure TweetNode where
  tweet_id : Nat
deriving DecidableEq, Repr

structure ClaimNode where
  id : Nat
deriving DecidableEq, Repr

structure ArticleNode where
  id : Nat
deriving DecidableEq, Repr

structure UserNode where
  user_id : Nat
deriving DecidableEq, Repr

/-- The tables `_shrink_dataset` reads and writes. -/
structure ShrinkState where
  tweets : List TweetNode
  claims : List ClaimNode
  articles : List ArticleNode
  users : List UserNode
  tweetDiscussesClaim : List ScoredRel
  articleDiscussesClaim : List ScoredRel
  userPostedTweet : List KeyRel
  tweetMentionsUser : List KeyRel
  userMentionsUser : List KeyRel
deriving DecidableEq, Repr

/-- Lines 267-269: `query('relevance > threshold')` on the tweet seed. -/
def survDiscusses (t : ℚ) (D : ShrinkState) : List ScoredRel :=
  D.tweetDiscussesClaim.filter (fun r => decide (t < r.relevance))

/-- Lines 272-274: keep tweets whose `tweet_id` occurs among the surviving
seed edges' sources. -/
def survTweets (t : ℚ) (D : ShrinkState) : List TweetNode :=
  D.tweets.filter (fun x => decide (x.tweet_id ∈ (survDiscusses t D).map ScoredRel.src))

/-- Lines 277-279: keep claims referenced by surviving seed edges' targets. -/
def survClaims (t : ℚ) (D : ShrinkState) : List ClaimNode :=
  D.claims.filter (fun x => decide (x.id ∈ (survDiscusses t D).map ScoredRel.tgt))

/-- Lines 282-284: the article seed, filtered by the same threshold. -/
def survArtDiscusses (t : ℚ) (D : ShrinkState) : List ScoredRel :=
  D.articleDiscussesClaim.filter (fun r => decide (t < r.relevance))

/-- Lines 287-289: keep articles referenced by surviving article-seed sources. -/
def survArticles (t : ℚ) (D : ShrinkState) : List ArticleNode :=
  D.articles.filter (fun x => decide (x.id ∈ (survArtDiscusses t D).map ScoredRel.src))

/-- Lines 292-296: keep posted edges whose target tweet survived. -/
def survPosted (t : ℚ) (D : ShrinkState) : List KeyRel :=
  D.userPostedTweet.filter (fun r => decide (r.tgt ∈ (survTweets t D).map TweetNode.tweet_id))

/-- Lines 299-305: keep mention edges whose source tweet survived. -/
def survMentions (t : ℚ) (D : ShrinkState) : List KeyRel :=
  D.tweetMentionsUser.filter (fun r => decide (r.src ∈ (survTweets t D).map TweetNode.tweet_id))

/-- Lines 308-311: keep users that posted a surviving tweet **or** were
mentioned by one (`has_posted | was_mentioned`). -/
def survUsers (t : ℚ) (D : ShrinkState) : List UserNode :=
  D.users.filter (fun u =>
    decide (u.user_id ∈ (survPosted t D).map KeyRel.src) ||
    decide (u.user_id ∈ (survMentions t D).map KeyRel.tgt))

/-- Lines 314-325: keep user-mentions-user edges whose two endpoints survived. -/
def survUserMentions (t : ℚ) (D : ShrinkState) : List KeyRel :=
  (D.userMentionsUser.filter
      (fun r => decide (r.src ∈ (survUsers t D).map UserNode.user_id))).filter
    (fun r => decide (r.tgt ∈ (survUsers t D).map UserNode.user_id))

/-- The body of `_shrink_dataset` for an explicit numeric threshold. -/
def shrinkWith (t : ℚ) (D : ShrinkState) : ShrinkState :=
  ⟨survTweets t D, survClaims t D, survArticles t D, survUsers t D,
   survDiscusses t D, survArtDiscusses t D, survPosted t D, survMentions t D,
   survUserMentions t D⟩

/-- `_shrink_dataset` proper: `small` uses threshold `0.8`, `medium` uses
`0.75`, any other size is a no-op. -/
def shrinkDataset (size : String) (D : ShrinkState) : ShrinkState :=
  if size = "small" then shrinkWith 0.8 D
  else if size = "medium" then shrinkWith 0.75 D
  else D

/-- Range condition for a scored relation table read positionally. -/
def scoredInRange (nSrc nTgt : Nat) (rel : List ScoredRel) : Prop :=
  ∀ r ∈ rel, r.src < nSrc ∧ r.tgt < nTgt

/-- Range condition for an unscored relation table read positionally. -/
def keyInRange (nSrc nTgt : Nat) (rel : List KeyRel) : Prop :=
  ∀ r ∈ rel, r.src < nSrc ∧ r.tgt < nTgt

/-- Referential integrity in the claim's sense for the shrink-stage tables:
every relation row's `src`/`tgt`, read as positional indices, are in range
for the corresponding entity tables. -/
def shrinkRefIntegrity (D : ShrinkState) : Prop :=
  scoredInRange D.tweets.length D.claims.length D.tweetDiscussesClaim ∧
  scoredInRange D.articles.length D.claims.length D.articleDiscussesClaim ∧
  keyInRange D.users.length D.tweets.length D.userPostedTweet ∧
  keyInRange D.tweets.length D.users.length D.tweetMentionsUser ∧
  keyInRange D.users.length D.users.length D.userMentionsUser

/-- A small post-load state: one tweet (ID 1), one claim (ID 10), and a seed
relation containing an edge from tweet ID 5 — an ID absent from the tweet
table, as happens when the raw seed CSV references a tweet that is not in
the tweet CSV. -/
def shrinkEx : ShrinkState :=
  ⟨[⟨1⟩], [⟨10⟩], [], [], [⟨1, 10, 0.9⟩, ⟨5, 10, 0.9⟩], [], [], [], []⟩

/-- A post-load state with a poster user (ID 5) and a mention-only user
(ID 6). -/
def shrinkExMention : ShrinkState :=
  ⟨[⟨1⟩], [⟨10⟩], [], [⟨5⟩, ⟨6⟩], [⟨1, 10, 0.9⟩], [], [⟨5, 1⟩], [⟨1, 6⟩], []⟩

/-! ## Article enrichment worker (`article.py`, and `_extract_articles`
lines 776-800)

`process_article_url` strips the URL with
`re.sub(r'(\?.*"|\/$)', "", url)`, downloads and parses under a 10-second
timeout inside a bare `try`/`except` that returns `None` on any exception,
returns `None` on an empty title or empty stripped body, and otherwise
returns a record keyed by the stripped URL.  The external download/parse
effects are represented by a `FetchOutcome` per URL; the batch loop of
`_extract_articles` appends each non-`None` record (completion order of
`imap_unordered` is abstracted as input order, which the counting claims do
not depend on). -/

/-- Position of the last double quote in `l` occurring before the first
newline, if any: the extent of a greedy `.*"` match (`.` does not cross
newlines) starting at the head of `l`. -/
def lastQuoteAux : List Char → Option Nat
  | [] => none
  | c :: cs =>
    if c = '\n' then none
    else
      match lastQuoteAux cs with
      | some k => some (k + 1)
      | none => if c = '"' then some 0 else none

/-- One pass of Python `re.sub(r'(\?.*"|\/$)', "", url)` over the character
list: at each position, the first alternative consumes a `?` and greedily
everything up to the last following double quote (only when such a quote
exists before a newline), and the second alternative consumes a trailing
slash (at the end of the string or just before a final newline).  The fuel
argument is an upper bound on the number of steps; each step consumes at
least one character, so `length` fuel suffices. -/
def stripUrlAux : Nat → List Char → List Char
  | 0, _ => []
  | _ + 1, [] => []
  | fuel + 1, c :: rest =>
    match lastQuoteAux rest with
    | some k =>
      if c = '?' then stripUrlAux fuel (rest.drop (k + 1))
      else if c = '/' ∧ (rest = [] ∨ rest = ['\n']) then rest
      else c :: stripUrlAux fuel rest
    | none =>
      if c = '/' ∧ (rest = [] ∨ rest = ['\n']) then rest
      else c :: stripUrlAux fuel rest

/-- `article.py` line 33: `stripped_url = re.sub(r'(\?.*"|\/$)', "", url)`. -/
def stripUrl (s : String) : String :=
  String.mk (stripUrlAux s.data.length s.data)

/-- Collapse every run of the character `c` to a single occurrence:
`re.sub("c+", "c", s)`. -/
def collapseRuns (c : Char) : List Char → List Char
  | [] => []
  | [x] => [x]
  | x :: y :: rest =>
    if x = c ∧ y = c then collapseRuns c (y :: rest)
    else x :: collapseRuns c (y :: rest)

/-- Python `str.strip()`. -/
def pyStrip (s : String) : String :=
  String.mk (((s.data.dropWhile Char.isWhitespace).reverse.dropWhile
    Char.isWhitespace).reverse)

/-- The cleanup applied to titles and bodies (lines 52-54 and 61-63):
collapse newline runs, collapse space runs, strip. -/
def cleanText (s : String) : String :=
  pyStrip (String.mk (collapseRuns ' ' (collapseRuns '\n' s.data)))

/-- The externally observable outcome of downloading and parsing one URL:
the download timed out (the `@timeout(10)` decorator raised), some other
exception was raised by the fetch or parse, or parsing produced an article
object with the given fields (`publish_date` already `strftime`-formatted,
`top_image` of `None` standing for the `AttributeError` case). -/
inductive FetchOutcome where
  | timeout
  | failure
  | parsed (title : String) (text : String) (authors : List String)
      (publishDate : Option String) (topImage : Option String)
deriving DecidableEq, Repr

/-- The record returned by `process_article_url` on success (lines 78-85). -/
structure ArticleRecord where
  url : String
  title : String
  content : String
  authors : List String
  publish_date : Option String
  top_image_url : Option String
deriving DecidableEq, Repr

/-- `process_article_url` (lines 18-87): every exception from the download
(timeout included) or parse yields `None`; an empty extracted title yields
`None`; an empty stripped body yields `None`; otherwise the cleaned record
keyed by the stripped URL is returned. -/
def processArticleUrl (url : String) (outcome : FetchOutcome) : Option ArticleRecord :=
  let stripped_url := stripUrl url
  match outcome with
  | FetchOutcome.timeout => none
  | FetchOutcome.failure => none
  | FetchOutcome.parsed title text authors publishDate topImage =>
    if title = "" then none
    else
      let content := pyStrip text
      if content = "" then none
      else some ⟨stripped_url, cleanText title, cleanText content, authors,
        publishDate, topImage⟩

/-- The collection loop of `_extract_articles` (lines 776-794): each `None`
result is skipped, each record is appended. -/
def extractArticles : List (String × FetchOutcome) → List ArticleRecord
  | [] => []
  | p :: ps =>
    (match processArticleUrl p.1 p.2 with
     | some r => [r]
     | none => []) ++ extractArticles ps

/-- Success predicate on a batch item, in the spec's terms: the fetch and
parse succeeded and neither the title nor the stripped body is empty. -/
def articleSuccess (p : String × FetchOutcome) : Bool :=
  match p.2 with
  | FetchOutcome.parsed title text _ _ _ =>
    decide (¬ title = "") && decide (¬ pyStrip text = "")
  | _ => false

/-! ## User URL relation extraction (`_extract_relations`, lines 694-738) -/

/-- One element of a raw `urls` list: the optional `expanded_url` and `url`
keys of the JSON object. -/
structure UrlDict where
  expanded_url : Option String
  url : Option String
deriving DecidableEq, Repr

/-- The per-dict lambda `dct.get('expanded_url') or dct.get('url')`: Python
`or` falls through both on a missing key and on an empty string. -/
def extractUrlDict (d : UrlDict) : Option String :=
  match d.expanded_url with
  | some s => if s = "" then d.url else some s
  | none => d.url

/-- A user row as seen by the URL extraction: the `entities.url.urls` and
`entities.description.urls` nested lists. -/
structure UserUrlRec where
  urlUrls : Option (List UrlDict)
  descUrls : Option (List UrlDict)
deriving DecidableEq, Repr

/-- The inner join of one exploded user row's reference values against the
url node table's `url` column (entries can be NaN, modelled as `none`;
pandas merges join equal NaN keys, hence plain `Option` equality). -/
def urlRows (keys : List (Option String)) (i : Nat) : List (Option String) → List RelRow
  | [] => []
  | r :: rs => (positionsFrom 0 r keys).map (fun j => RelRow.mk i j) ++ urlRows keys i rs

/-- One merge block of lines 706-720 / 722-736: `dropna` on the chosen
column, `applymap(extract_url)`, `explode`, `reset_index` (original user
positions), merge against the url node column. -/
def userRefRows (keys : List (Option String))
    (field : UserUrlRec → Option (List UrlDict)) :
    Nat → List UserUrlRec → List RelRow
  | _, [] => []
  | i, u :: us =>
    (match field u with
     | none => []
     | some ds => urlRows keys i (ds.map extractUrlDict)) ++
      userRefRows keys field (i + 1) us

/-- The relation dictionary `self.rels`: a map from (source kind, label,
target kind) triples to optional tables. -/
def Rels : Type := String × String × String → Option (List RelRow)

/-- Lines 694-738, the `(:User)-[:HAS_URL]->(:Url)` block: when images are
included and at least one of the two URL columns exists, the two columns'
extractions are appended into one table (`rel_df` starts empty and both
blocks `append` to it), and the result is stored — exactly as line 738
does — under the key `('tweet', 'has_url', 'url')`. -/
def extractUserUrls (includeImages urlColExists descColExists : Bool)
    (users : List UserUrlRec) (urlKeys : List (Option String))
    (rels : Rels) : Rels :=
  if includeImages && (urlColExists || descColExists) then
    let rel1 := if urlColExists then userRefRows urlKeys UserUrlRec.urlUrls 0 users else []
    let rel2 := if descColExists then userRefRows urlKeys UserUrlRec.descUrls 0 users else []
    fun k => if k = ("tweet", "has_url", "url") then some (rel1 ++ rel2) else rels k
  else rels

/-- A relation dictionary holding one previously derived
tweet-has_url-url table. -/
def relsEx : Rels := fun k =>
  if k = ("tweet", "has_url", "url") then some [⟨7, 0⟩] else none

/-! ## Image enrichment (`_extract_images`, lines 846-927) -/

/-- A successful image-worker record (url, pixel buffer, height, width).
Modelled from the spec: the worker `process_image_url` is not among the
sources; per the spec it yields one such record per URL whose fetch and
decode succeed with a readable raster, and `None` otherwise.  The stage
consumes only the list of successful records, supplied here as a
parameter. -/
structure ImageRecord where
  url : String
  pixels : Nat
  height : Nat
  width : Nat
deriving DecidableEq, Repr

/-- The tables `_extract_images` reads. -/
structure ImageState where
  urlNodes : List (Option String)
  tweetHasUrl : List RelRow
  articleHasTopImageUrl : List RelRow
  userHasProfilePictureUrl : List RelRow
deriving DecidableEq, Repr

/-- The tables `_extract_images` would produce if it completed. -/
structure ImagesOut where
  images : List ImageRecord
  tweetHasImage : List RelRow
  articleHasTopImage : List RelRow
  userHasProfilePicture : List RelRow
deriving DecidableEq, Repr

/-- The double merge of lines 880-894 (and analogues): rel rows are joined
on `ul_idx` against the url node positions, then on the url string against
the new image table's keys. -/
def promoteRel (urlNodes : List (Option String)) (imageUrls : List String) :
    List RelRow → List RelRow
  | [] => []
  | r :: rs =>
    (match urlNodes.get? r.tgt with
     | none => []
     | some u =>
       match u with
       | none => []
       | some s => (positionsFrom 0 s imageUrls).map (fun j => RelRow.mk r.src j)) ++
      promoteRel urlNodes imageUrls rs

/-- `_extract_images` (lines 846-927).  The image table and the first two
promoted relations are computed, and then the
`(:User)-[:HAS_PROFILE_PICTURE]->(:Image)` block executes
`rel_df = self.rels[rel][is_image_url].reset_index(drop=True)` (line 926),
which references the undefined names `rel` and `is_image_url` and therefore
raises `NameError` unconditionally.  (The modelling of the preceding merges
is generous to the code: in pandas the new image frame keeps its URLs in
the index, not in a `url` column, so the earlier `[['url']]` selections
would already raise `KeyError`; even granting them, the stage cannot
complete.) -/
def extractImages (includeImages : Bool) (st : ImageState)
    (imageResults : List ImageRecord) : Except String (Option ImagesOut) :=
  if includeImages then
    let imageUrls := imageResults.map ImageRecord.url
    let _tweetHasImage := promoteRel st.urlNodes imageUrls st.tweetHasUrl
    let _articleHasTopImage := promoteRel st.urlNodes imageUrls st.articleHasTopImageUrl
    let _merged := promoteRel st.urlNodes imageUrls st.userHasProfilePictureUrl
    Except.error "NameError: name rel is not defined"
  else Except.ok none

/-! ## Theorems -/

theorem mem_positionsFrom {α : Type} [DecidableEq α] {m : α} {x j : Nat} :
    ∀ {ks : List α}, x ∈ positionsFrom j m ks → j ≤ x ∧ x < j + ks.length := by
  intro ks
  induction ks generalizing j with
  | nil => intro h; simp [positionsFrom] at h
  | cons k ks ih =>
    intro h
    simp only [positionsFrom, List.mem_append] at h
    rcases h with h | h
    · by_cases hk : k = m
      · simp [hk] at h
        subst h
        simp only [List.length_cons]
        omega
      · simp [hk] at h
    · have := ih h
      simp only [List.length_cons]
      omega

theorem positionsFrom_eq_nil_of_not_mem {α : Type} [DecidableEq α] {m : α}
    {ks : List α} (h : m ∉ ks) : ∀ j, positionsFrom j m ks = [] := by
  induction ks with
  | nil => intro j; rfl
  | cons k ks ih =>
    intro j
    simp only [List.mem_cons, not_or] at h
    simp [positionsFrom, Ne.symm h.1, ih h.2]

theorem positionsFrom_of_nodup {α : Type} [DecidableEq α] {m : α}
    {ks : List α} (h : ks.Nodup) :
    ∀ j, positionsFrom j m ks =
      match firstPos m ks with
      | some i => [j + i]
      | none => [] := by
  induction ks with
  | nil => intro j; rfl
  | cons k ks ih =>
    intro j
    rcases List.nodup_cons.mp h with ⟨hk, hks⟩
    by_cases he : k = m
    · subst he
      simp [positionsFrom, firstPos, positionsFrom_eq_nil_of_not_mem hk]
    · simp only [positionsFrom, firstPos, if_neg he, List.nil_append]
      rw [ih hks (j + 1)]
      cases firstPos m ks with
      | none => simp
      | some i =>
        show [j + 1 + i] = [j + (i + 1)]
        have : j + 1 + i = j + (i + 1) := by omega
        rw [this]

theorem splitUnderscore_ne_nil (cs : List Char) : splitUnderscore cs ≠ [] := by
  cases cs with
  | nil => simp [splitUnderscore]
  | cons c cs =>
    simp only [splitUnderscore]
    by_cases h : c = '_' <;> simp [h]

theorem splitUnderscore_singleton {cs l : List Char}
    (h : splitUnderscore cs = [l]) : l = cs := by
  induction cs generalizing l with
  | nil =>
    simp only [splitUnderscore, List.cons.injEq] at h
    exact h.1.symm
  | cons c cs ih =>
    by_cases hc : c = '_'
    · exfalso
      simp only [splitUnderscore, if_pos hc] at h
      have := splitUnderscore_ne_nil cs
      cases hr : splitUnderscore cs with
      | nil => exact this hr
      | cons a as => rw [hr] at h; simp at h
    · simp only [splitUnderscore, if_neg hc] at h
      cases hr : splitUnderscore cs with
      | nil => exact absurd hr (splitUnderscore_ne_nil cs)
      | cons a as =>
        rw [hr] at h
        cases as with
        | nil =>
          simp at h
          simp [← h, ih hr]
        | cons b bs => simp at h

theorem getLastD_concat {α : Type} (a d : α) (l : List α) :
    (l ++ [a]).getLastD d = a := by
  induction l with
  | nil => rfl
  | cons b bs ih => simp [List.getLastD, ih]

theorem dropLast_concat_eq {α : Type} (a : α) (l : List α) :
    (l ++ [a]).dropLast = l := by
  induction l with
  | nil => rfl
  | cons b bs ih =>
    cases bs with
    | nil => rfl
    | cons c cs => simp_all [List.dropLast]

/-- C5: the filename grammar of `_load_dataset`: a stem splitting on
underscores into exactly one token is a node file named by that token (the
whole stem); three or more tokens give a relation file whose source is the
first token, whose target is the last token and whose label is the middle
tokens re-joined with underscores; exactly two tokens raise a naming error.
The concrete conjuncts check the spec's three examples. -/

theorem C5_filename_grammar :
    (∀ fname t, fnameSplits fname = [t] →
      t = fname ∧ classifyFname fname = Except.ok (FileClass.node fname)) ∧
    (∀ fname first mids last, mids ≠ [] →
      fnameSplits fname = first :: (mids ++ [last]) →
      classifyFname fname = Except.ok (FileClass.rel first (joinUnderscore mids) last)) ∧
    (∀ fname a b, fnameSplits fname = [a, b] →
      classifyFname fname
        = Except.error ("Could not recognise " ++ fname ++ " as a node or relation.")) ∧
    classifyFname "tweet" = Except.ok (FileClass.node "tweet") ∧
    classifyFname "tweet_has_hashtag_hashtag"
      = Except.ok (FileClass.rel "tweet" "has_hashtag" "hashtag") ∧
    classifyFname "a_b" = Except.error "Could not recognise a_b as a node or relation." := by
  refine ⟨?_, ?_, ?_, rfl, rfl, rfl⟩
  · intro fname t h
    have hsplit : splitUnderscore fname.data = [t.data] ∧ t = fname := by
      unfold fnameSplits at h
      cases hs : splitUnderscore fname.data with
      | nil => exact absurd hs (splitUnderscore_ne_nil fname.data)
      | cons a as =>
        rw [hs] at h
        cases as with
        | nil =>
          simp only [List.map_cons, List.map_nil, List.cons.injEq, and_true] at h
          have ha : a = fname.data := splitUnderscore_singleton hs
          subst ha
          constructor
          · rw [← h]
          · rw [← h]
        | cons b bs => simp at h
    refine ⟨hsplit.2, ?_⟩
    unfold classifyFname
    rw [if_pos (by rw [h]; rfl)]
  · intro fname first mids last hm h
    have hlen : (fnameSplits fname).length = mids.length + 2 := by
      rw [h]; simp
    have hm1 : 1 ≤ mids.length := by
      cases mids with
      | nil => exact absurd rfl hm
      | cons x xs => simp
    unfold classifyFname
    rw [if_neg (by omega), if_pos (by omega)]
    rw [h]
    simp only [List.headD_cons, List.drop_succ_cons, List.drop_zero]
    rw [dropLast_concat_eq]
    rw [show first :: (mids ++ [last]) = (first :: mids) ++ [last] by simp,
      getLastD_concat]
  · intro fname a b h
    unfold classifyFname
    rw [if_neg (by rw [h]; simp), if_neg (by rw [h]; simp)]

/-- C5 witness: the general grammar theorem applied to the spec's three
concrete stems. -/

theorem C5_filename_grammar_witness :
    classifyFname "tweet" = Except.ok (FileClass.node "tweet") ∧
    classifyFname "tweet_has_hashtag_hashtag"
      = Except.ok (FileClass.rel "tweet" "has_hashtag" "hashtag") ∧
    classifyFname "a_b" = Except.error "Could not recognise a_b as a node or relation." :=
  ⟨(C5_filename_grammar.1 "tweet" "tweet" rfl).2,
   C5_filename_grammar.2.1 "tweet_has_hashtag_hashtag" "tweet" ["has", "hashtag"] "hashtag"
     (by simp) (by decide),
   C5_filename_grammar.2.2.1 "a_b" "a" "b" rfl⟩

/-- C4 counterexample: a raw dataset whose user table contains the duplicate
natural ID 5 loads without any error, contradicting the claim that loading
aborts on a duplicate natural ID in the user table (the loader only ever
checks tweet IDs). -/

theorem C4_counterexample :
    loadValidate ⟨["claim", "tweet", "user"], [1, 2], [5, 5]⟩ = Except.ok () ∧
    duplicatedFrom [] [5, 5] = [5] :=
  ⟨rfl, rfl⟩

/-- C4 (amended): loading aborts with a descriptive error exactly when the
claim table is absent, the tweet table is absent, or the tweet table has a
duplicate natural ID; the user table's IDs are never inspected (replacing
them cannot change the outcome), and otherwise validation succeeds. -/

theorem C4_load_validation (d : LoadedData) :
    (loadValidate d = Except.ok () ↔
      ("claim" ∈ d.nodeNames ∧ "tweet" ∈ d.nodeNames ∧
        duplicatedFrom [] d.tweetIds = [])) ∧
    (∀ ids, loadValidate { d with userIds := ids } = loadValidate d) ∧
    ("claim" ∉ d.nodeNames →
      loadValidate d = Except.error "No claims are present in the zipfile!") ∧
    ("claim" ∈ d.nodeNames → "tweet" ∉ d.nodeNames →
      loadValidate d = Except.error "No tweets are present in the zipfile!") := by
  refine ⟨?_, fun ids => rfl, ?_, ?_⟩
  · by_cases h1 : "claim" ∈ d.nodeNames
    · by_cases h2 : "tweet" ∈ d.nodeNames
      · by_cases h3 : duplicatedFrom [] d.tweetIds = []
        · unfold loadValidate
          rw [if_neg (not_not.mpr h1), if_neg (not_not.mpr h2),
            if_neg (not_not.mpr h3)]
          simp [h1, h2, h3]
        · unfold loadValidate
          rw [if_neg (not_not.mpr h1), if_neg (not_not.mpr h2), if_pos h3]
          simp [h3]
      · unfold loadValidate
        rw [if_neg (not_not.mpr h1), if_pos h2]
        simp [h2]
    · unfold loadValidate
      rw [if_pos h1]
      simp [h1]
  · intro h1
    unfold loadValidate
    rw [if_pos h1]
  · intro h1 h2
    unfold loadValidate
    rw [if_neg (not_not.mpr h1), if_pos h2]

/-- C4 witness: the amended load-validation theorem applied to concrete
datasets, one passing all checks and one with the claim table absent. -/

theorem C4_load_validation_witness :
    loadValidate ⟨["claim", "tweet"], [1, 2], [5, 5]⟩ = Except.ok () ∧
    loadValidate ⟨["tweet"], [1], []⟩ = Except.error "No claims are present in the zipfile!" :=
  ⟨(C4_load_validation ⟨["claim", "tweet"], [1, 2], [5, 5]⟩).1.mpr (by decide),
   (C4_load_validation ⟨["tweet"], [1], []⟩).2.2.1 (by decide)⟩

theorem mentionRows_eq_spec {keys : List Nat} (h : keys.Nodup) (i : Nat)
    (ms : List Nat) : mentionRows keys i ms = specMentionRows keys i ms := by
  induction ms with
  | nil => rfl
  | cons m ms ih =>
    simp only [mentionRows, specMentionRows, ih]
    rw [positionsFrom_of_nodup h 0]
    cases firstPos m keys with
    | none => rfl
    | some j => simp

theorem extractMentionsFrom_eq_spec {keys : List Nat} (h : keys.Nodup) :
    ∀ (i : Nat) (ts : List TweetRec),
      extractMentionsFrom keys i ts = specMentionsFrom keys i ts := by
  intro i ts
  induction ts generalizing i with
  | nil => rfl
  | cons t ts ih =>
    simp only [extractMentionsFrom, specMentionsFrom, ih]
    cases t.mentions with
    | none => rfl
    | some ms =>
      show mentionRows keys i ms ++ specMentionsFrom keys (i + 1) ts
          = specMentionRows keys i ms ++ specMentionsFrom keys (i + 1) ts
      rw [mentionRows_eq_spec h]

theorem extractPostedFrom_eq_spec {keys : List Nat} (h : keys.Nodup) :
    ∀ (i : Nat) (ts : List TweetRec),
      extractPostedFrom keys i ts = specPostedFrom keys i ts := by
  intro i ts
  induction ts generalizing i with
  | nil => rfl
  | cons t ts ih =>
    simp only [extractPostedFrom, specPostedFrom, ih]
    cases t.author_id with
    | none => rfl
    | some a =>
      show (positionsFrom 0 a keys).map (fun j => RelRow.mk j i) ++
            specPostedFrom keys (i + 1) ts
          = (match firstPos a keys with
             | some j => [RelRow.mk j i]
             | none => []) ++ specPostedFrom keys (i + 1) ts
      rw [positionsFrom_of_nodup h 0]
      cases firstPos a keys with
      | none => rfl
      | some j => simp

/-- C2: join-based relation extraction.  When the user natural keys are
duplicate-free (the loader's uniqueness precondition), the tweet-mentions-user
and user-posted-tweet tables produced by `_extract_relations` contain exactly
one (source position, target position) pair per reference value that resolves
against the target key column, and no row for an unresolved reference, without
any error (the extraction functions are total).  Concretely: a tweet whose
mention list is `[7]` yields the pair `(0, 2)` when user key `7` sits at
position `2`, and yields no row when no user has key `7`. -/
theorem C2_join_extraction (tweets : List TweetRec) (users : List UserRec)
    (h : (users.map UserRec.user_id).Nodup) :
    extractMentions tweets users = mentionsSpec tweets users ∧
    extractPosted tweets users = postedSpec tweets users ∧
    extractMentions [⟨100, none, some [7]⟩] [⟨5⟩, ⟨6⟩, ⟨7⟩] = [⟨0, 2⟩] ∧
    extractMentions [⟨100, none, some [7]⟩] [⟨5⟩, ⟨6⟩] = [] :=
  ⟨extractMentionsFrom_eq_spec h 0 tweets,
   extractPostedFrom_eq_spec h 0 tweets,
   rfl, rfl⟩

/-- C2 witness: the join-extraction theorem applied to the spec's concrete
example table (user keys `[5, 6, 7]`, duplicate-free). -/
theorem C2_join_extraction_witness :
    (([⟨5⟩, ⟨6⟩, ⟨7⟩] : List UserRec).map UserRec.user_id).Nodup ∧
    extractMentions [⟨100, none, some [7]⟩] [⟨5⟩, ⟨6⟩, ⟨7⟩]
      = mentionsSpec [⟨100, none, some [7]⟩] [⟨5⟩, ⟨6⟩, ⟨7⟩] :=
  ⟨by decide, (C2_join_extraction [⟨100, none, some [7]⟩] [⟨5⟩, ⟨6⟩, ⟨7⟩] (by decide)).1⟩

theorem mem_mentionRows {keys : List Nat} {i : Nat} {r : RelRow} :
    ∀ {ms : List Nat}, r ∈ mentionRows keys i ms →
      r.src = i ∧ r.tgt < keys.length := by
  intro ms
  induction ms with
  | nil => intro h; simp [mentionRows] at h
  | cons m ms ih =>
    intro h
    simp only [mentionRows, List.mem_append, List.mem_map] at h
    rcases h with ⟨j, hj, hr⟩ | h
    · have := mem_positionsFrom hj
      subst hr
      exact ⟨rfl, by simpa using this.2⟩
    · exact ih h

theorem mem_extractMentionsFrom {keys : List Nat} {r : RelRow} :
    ∀ {i : Nat} {ts : List TweetRec}, r ∈ extractMentionsFrom keys i ts →
      i ≤ r.src ∧ r.src < i + ts.length ∧ r.tgt < keys.length := by
  intro i ts
  induction ts generalizing i with
  | nil => intro h; simp [extractMentionsFrom] at h
  | cons t ts ih =>
    intro h
    simp only [extractMentionsFrom, List.mem_append] at h
    rcases h with h | h
    · cases hm : t.mentions with
      | none => rw [hm] at h; simp at h
      | some ms =>
        rw [hm] at h
        have := mem_mentionRows h
        simp only [List.length_cons]
        omega
    · have := ih h
      simp only [List.length_cons]
      omega

theorem mem_extractPostedFrom {keys : List Nat} {r : RelRow} :
    ∀ {i : Nat} {ts : List TweetRec}, r ∈ extractPostedFrom keys i ts →
      r.src < keys.length ∧ i ≤ r.tgt ∧ r.tgt < i + ts.length := by
  intro i ts
  induction ts generalizing i with
  | nil => intro h; simp [extractPostedFrom] at h
  | cons t ts ih =>
    intro h
    simp only [extractPostedFrom, List.mem_append] at h
    rcases h with h | h
    · cases hm : t.author_id with
      | none => rw [hm] at h; simp at h
      | some a =>
        rw [hm] at h
        simp only [List.mem_map] at h
        rcases h with ⟨j, hj, hr⟩
        have := mem_positionsFrom hj
        subst hr
        refine ⟨by simpa using this.2, le_refl _, ?_⟩
        simp only [List.length_cons]
        omega
    · have := ih h
      simp only [List.length_cons]
      omega

/-- C1 (amended): referential integrity holds for the relation tables the
join-based extractor produces, at the moment of extraction: every emitted
row's `src` and `tgt` are positional indices in range for the source and
target entity tables.  (The original claim fails for the tables carried
through the shrink stage, whose `src`/`tgt` columns hold natural keys, not
positional indices — see the counterexample.) -/
theorem C1_extraction_referential_integrity (tweets : List TweetRec)
    (users : List UserRec) :
    (∀ r ∈ extractMentions tweets users,
      r.src < tweets.length ∧ r.tgt < users.length) ∧
    (∀ r ∈ extractPosted tweets users,
      r.src < users.length ∧ r.tgt < tweets.length) := by
  constructor
  · intro r hr
    have h1 := mem_extractMentionsFrom hr
    have h2 : (users.map UserRec.user_id).length = users.length :=
      List.length_map _ _
    exact ⟨by omega, by omega⟩
  · intro r hr
    have h1 := mem_extractPostedFrom hr
    have h2 : (users.map UserRec.user_id).length = users.length :=
      List.length_map _ _
    exact ⟨by omega, by omega⟩

/-- C1 witness: the amended referential-integrity theorem applied to the
concrete mention-extraction example; the emitted row `(0, 2)` is in range for
a 1-tweet, 3-user dataset. -/
theorem C1_extraction_referential_integrity_witness :
    ((⟨0, 2⟩ : RelRow) ∈ extractMentions [⟨100, none, some [7]⟩] [⟨5⟩, ⟨6⟩, ⟨7⟩]) ∧
    (0 < 1 ∧ 2 < 3) :=
  ⟨by decide,
   (C1_extraction_referential_integrity [⟨100, none, some [7]⟩] [⟨5⟩, ⟨6⟩, ⟨7⟩]).1
     ⟨0, 2⟩ (by decide)⟩

theorem filter_sublist_mono {α : Type} {p q : α → Bool} :
    ∀ l : List α, (∀ a, p a = true → q a = true) → l.filter p <+ l.filter q := by
  intro l h
  induction l with
  | nil => simp
  | cons a l ih =>
    by_cases hp : p a = true
    · rw [List.filter_cons_of_pos hp, List.filter_cons_of_pos (h a hp)]
      exact ih.cons₂ a
    · rw [List.filter_cons_of_neg (by simp [hp])]
      by_cases hq : q a = true
      · rw [List.filter_cons_of_pos hq]
        exact ih.cons a
      · rw [List.filter_cons_of_neg (by simp [hq])]
        exact ih

theorem survDiscusses_shrink (t : ℚ) (D : ShrinkState) :
    survDiscusses t (shrinkWith t D) = survDiscusses t D := by
  show (survDiscusses t D).filter _ = survDiscusses t D
  apply List.filter_eq_self.mpr
  intro a ha
  exact (List.mem_filter.mp ha).2

theorem survTweets_shrink (t : ℚ) (D : ShrinkState) :
    survTweets t (shrinkWith t D) = survTweets t D := by
  unfold survTweets
  rw [survDiscusses_shrink]
  show (D.tweets.filter _).filter _ = D.tweets.filter _
  apply List.filter_eq_self.mpr
  intro a ha
  exact (List.mem_filter.mp ha).2

theorem survClaims_shrink (t : ℚ) (D : ShrinkState) :
    survClaims t (shrinkWith t D) = survClaims t D := by
  unfold survClaims
  rw [survDiscusses_shrink]
  show (D.claims.filter _).filter _ = D.claims.filter _
  apply List.filter_eq_self.mpr
  intro a ha
  exact (List.mem_filter.mp ha).2

theorem survArtDiscusses_shrink (t : ℚ) (D : ShrinkState) :
    survArtDiscusses t (shrinkWith t D) = survArtDiscusses t D := by
  show (survArtDiscusses t D).filter _ = survArtDiscusses t D
  apply List.filter_eq_self.mpr
  intro a ha
  exact (List.mem_filter.mp ha).2

theorem survArticles_shrink (t : ℚ) (D : ShrinkState) :
    survArticles t (shrinkWith t D) = survArticles t D := by
  unfold survArticles
  rw [survArtDiscusses_shrink]
  show (D.articles.filter _).filter _ = D.articles.filter _
  apply List.filter_eq_self.mpr
  intro a ha
  exact (List.mem_filter.mp ha).2

theorem survPosted_shrink (t : ℚ) (D : ShrinkState) :
    survPosted t (shrinkWith t D) = survPosted t D := by
  unfold survPosted
  rw [survTweets_shrink]
  show (D.userPostedTweet.filter _).filter _ = D.userPostedTweet.filter _
  apply List.filter_eq_self.mpr
  intro a ha
  exact (List.mem_filter.mp ha).2

theorem survMentions_shrink (t : ℚ) (D : ShrinkState) :
    survMentions t (shrinkWith t D) = survMentions t D := by
  unfold survMentions
  rw [survTweets_shrink]
  show (D.tweetMentionsUser.filter _).filter _ = D.tweetMentionsUser.filter _
  apply List.filter_eq_self.mpr
  intro a ha
  exact (List.mem_filter.mp ha).2

theorem survUsers_shrink (t : ℚ) (D : ShrinkState) :
    survUsers t (shrinkWith t D) = survUsers t D := by
  unfold survUsers
  rw [survPosted_shrink, survMentions_shrink]
  show (D.users.filter _).filter _ = D.users.filter _
  apply List.filter_eq_self.mpr
  intro a ha
  exact (List.mem_filter.mp ha).2

theorem survUserMentions_shrink (t : ℚ) (D : ShrinkState) :
    survUserMentions t (shrinkWith t D) = survUserMentions t D := by
  unfold survUserMentions
  rw [survUsers_shrink]
  show ((survUserMentions t D).filter _).filter _
      = (D.userMentionsUser.filter _).filter _
  have h1 : (survUserMentions t D).filter
      (fun r => decide (r.src ∈ (survUsers t D).map UserNode.user_id))
      = survUserMentions t D := by
    apply List.filter_eq_self.mpr
    intro a ha
    exact (List.mem_filter.mp (List.mem_filter.mp ha).1).2
  rw [h1]
  apply List.filter_eq_self.mpr
  intro a ha
  exact (List.mem_filter.mp ha).2

theorem shrinkWith_idem (t : ℚ) (D : ShrinkState) :
    shrinkWith t (shrinkWith t D) = shrinkWith t D := by
  show ShrinkState.mk (survTweets t (shrinkWith t D)) (survClaims t (shrinkWith t D))
      (survArticles t (shrinkWith t D)) (survUsers t (shrinkWith t D))
      (survDiscusses t (shrinkWith t D)) (survArtDiscusses t (shrinkWith t D))
      (survPosted t (shrinkWith t D)) (survMentions t (shrinkWith t D))
      (survUserMentions t (shrinkWith t D))
      = ShrinkState.mk (survTweets t D) (survClaims t D) (survArticles t D)
      (survUsers t D) (survDiscusses t D) (survArtDiscusses t D) (survPosted t D)
      (survMentions t D) (survUserMentions t D)
  rw [survTweets_shrink, survClaims_shrink, survArticles_shrink, survUsers_shrink,
    survDiscusses_shrink, survArtDiscusses_shrink, survPosted_shrink,
    survMentions_shrink, survUserMentions_shrink]

theorem survDiscusses_mono {t1 t2 : ℚ} (hle : t2 ≤ t1) (D : ShrinkState) :
    survDiscusses t1 D <+ survDiscusses t2 D := by
  apply filter_sublist_mono
  intro a ha
  simp only [decide_eq_true_eq] at ha ⊢
  exact lt_of_le_of_lt hle ha

theorem survTweets_mono {t1 t2 : ℚ} (hle : t2 ≤ t1) (D : ShrinkState) :
    survTweets t1 D <+ survTweets t2 D := by
  apply filter_sublist_mono
  intro a ha
  simp only [decide_eq_true_eq, List.mem_map] at ha ⊢
  rcases ha with ⟨r, hr, hid⟩
  exact ⟨r, (survDiscusses_mono hle D).subset hr, hid⟩

theorem survClaims_mono {t1 t2 : ℚ} (hle : t2 ≤ t1) (D : ShrinkState) :
    survClaims t1 D <+ survClaims t2 D := by
  apply filter_sublist_mono
  intro a ha
  simp only [decide_eq_true_eq, List.mem_map] at ha ⊢
  rcases ha with ⟨r, hr, hid⟩
  exact ⟨r, (survDiscusses_mono hle D).subset hr, hid⟩

theorem survArtDiscusses_mono {t1 t2 : ℚ} (hle : t2 ≤ t1) (D : ShrinkState) :
    survArtDiscusses t1 D <+ survArtDiscusses t2 D := by
  apply filter_sublist_mono
  intro a ha
  simp only [decide_eq_true_eq] at ha ⊢
  exact lt_of_le_of_lt hle ha

theorem survArticles_mono {t1 t2 : ℚ} (hle : t2 ≤ t1) (D : ShrinkState) :
    survArticles t1 D <+ survArticles t2 D := by
  apply filter_sublist_mono
  intro a ha
  simp only [decide_eq_true_eq, List.mem_map] at ha ⊢
  rcases ha with ⟨r, hr, hid⟩
  exact ⟨r, (survArtDiscusses_mono hle D).subset hr, hid⟩

theorem survPosted_mono {t1 t2 : ℚ} (hle : t2 ≤ t1) (D : ShrinkState) :
    survPosted t1 D <+ survPosted t2 D := by
  apply filter_sublist_mono
  intro a ha
  simp only [decide_eq_true_eq, List.mem_map] at ha ⊢
  rcases ha with ⟨r, hr, hid⟩
  exact ⟨r, (survTweets_mono hle D).subset hr, hid⟩

theorem survMentions_mono {t1 t2 : ℚ} (hle : t2 ≤ t1) (D : ShrinkState) :
    survMentions t1 D <+ survMentions t2 D := by
  apply filter_sublist_mono
  intro a ha
  simp only [decide_eq_true_eq, List.mem_map] at ha ⊢
  rcases ha with ⟨r, hr, hid⟩
  exact ⟨r, (survTweets_mono hle D).subset hr, hid⟩

theorem survUsers_mono {t1 t2 : ℚ} (hle : t2 ≤ t1) (D : ShrinkState) :
    survUsers t1 D <+ survUsers t2 D := by
  apply filter_sublist_mono
  intro a ha
  simp only [Bool.or_eq_true, decide_eq_true_eq, List.mem_map] at ha ⊢
  rcases ha with ⟨r, hr, hid⟩ | ⟨r, hr, hid⟩
  · exact Or.inl ⟨r, (survPosted_mono hle D).subset hr, hid⟩
  · exact Or.inr ⟨r, (survMentions_mono hle D).subset hr, hid⟩

theorem survUserMentions_mono {t1 t2 : ℚ} (hle : t2 ≤ t1) (D : ShrinkState) :
    survUserMentions t1 D <+ survUserMentions t2 D := by
  unfold survUserMentions
  have hstep1 : (D.userMentionsUser.filter
        (fun r => decide (r.src ∈ (survUsers t1 D).map UserNode.user_id))).filter
        (fun r => decide (r.tgt ∈ (survUsers t1 D).map UserNode.user_id))
      <+ (D.userMentionsUser.filter
        (fun r => decide (r.src ∈ (survUsers t1 D).map UserNode.user_id))).filter
        (fun r => decide (r.tgt ∈ (survUsers t2 D).map UserNode.user_id)) := by
    apply filter_sublist_mono
    intro a ha
    simp only [decide_eq_true_eq, List.mem_map] at ha ⊢
    rcases ha with ⟨r, hr, hid⟩
    exact ⟨r, (survUsers_mono hle D).subset hr, hid⟩
  have hstep2 : (D.userMentionsUser.filter
        (fun r => decide (r.src ∈ (survUsers t1 D).map UserNode.user_id)))
      <+ (D.userMentionsUser.filter
        (fun r => decide (r.src ∈ (survUsers t2 D).map UserNode.user_id))) := by
    apply filter_sublist_mono
    intro a ha
    simp only [decide_eq_true_eq, List.mem_map] at ha ⊢
    rcases ha with ⟨r, hr, hid⟩
    exact ⟨r, (survUsers_mono hle D).subset hr, hid⟩
  exact hstep1.trans (hstep2.filter _)

/-- C1 counterexample: after the shrink stage with the `small` preset, the
seed relation of a loadable post-load state keeps an edge `(5, 10)` although
the shrunk dataset has one tweet row and one claim row, so the edge's
`src`/`tgt` are not positional indices in range for the entity tables — the
claim fails at this pipeline stage's output (and hence at every later stage
that carries this table through). -/
theorem C1_counterexample :
    ¬ shrinkRefIntegrity (shrinkDataset "small" shrinkEx) := by
  intro h
  have hs : shrinkDataset "small" shrinkEx = shrinkWith 0.8 shrinkEx := by
    unfold shrinkDataset
    rw [if_pos rfl]
  rw [hs] at h
  unfold shrinkRefIntegrity scoredInRange at h
  have hrow : (⟨5, 10, 0.9⟩ : ScoredRel) ∈ (shrinkWith 0.8 shrinkEx).tweetDiscussesClaim := by
    show (⟨5, 10, 0.9⟩ : ScoredRel)
        ∈ shrinkEx.tweetDiscussesClaim.filter (fun r => decide ((0.8 : ℚ) < r.relevance))
    apply List.mem_filter.mpr
    refine ⟨by simp [shrinkEx], ?_⟩
    norm_num
  have h5 := h.1 ⟨5, 10, 0.9⟩ hrow
  have hlen : (shrinkWith 0.8 shrinkEx).tweets.length ≤ shrinkEx.tweets.length :=
    List.length_filter_le _ _
  have hone : shrinkEx.tweets.length = 1 := rfl
  have h51 : (5 : Nat) < (shrinkWith 0.8 shrinkEx).tweets.length := h5.1
  omega

/-- C3: the subgraph-filter algebra of `_shrink_dataset`: (1) applying the
filter twice with the same threshold equals applying it once; (2) the seed
relation keeps exactly the rows whose relevance is strictly greater than the
threshold; (3) for thresholds `t2 ≤ t1` every node and relation table of the
`t1`-filtered dataset is a sublist (hence subset) of the corresponding
`t2`-filtered table; (4) consequently every table of the `small` preset
(threshold `0.8`) is a sublist of the `medium` preset's table (threshold
`0.75`). -/
theorem C3_filter_algebra (D : ShrinkState) (t t1 t2 : ℚ) :
    shrinkWith t (shrinkWith t D) = shrinkWith t D ∧
    (∀ r, r ∈ (shrinkWith t D).tweetDiscussesClaim ↔
      r ∈ D.tweetDiscussesClaim ∧ t < r.relevance) ∧
    (t2 ≤ t1 →
      (shrinkWith t1 D).tweets <+ (shrinkWith t2 D).tweets ∧
      (shrinkWith t1 D).claims <+ (shrinkWith t2 D).claims ∧
      (shrinkWith t1 D).articles <+ (shrinkWith t2 D).articles ∧
      (shrinkWith t1 D).users <+ (shrinkWith t2 D).users ∧
      (shrinkWith t1 D).tweetDiscussesClaim <+ (shrinkWith t2 D).tweetDiscussesClaim ∧
      (shrinkWith t1 D).articleDiscussesClaim <+ (shrinkWith t2 D).articleDiscussesClaim ∧
      (shrinkWith t1 D).userPostedTweet <+ (shrinkWith t2 D).userPostedTweet ∧
      (shrinkWith t1 D).tweetMentionsUser <+ (shrinkWith t2 D).tweetMentionsUser ∧
      (shrinkWith t1 D).userMentionsUser <+ (shrinkWith t2 D).userMentionsUser) ∧
    ((shrinkDataset "small" D).tweets <+ (shrinkDataset "medium" D).tweets ∧
      (shrinkDataset "small" D).users <+ (shrinkDataset "medium" D).users ∧
      (shrinkDataset "small" D).tweetDiscussesClaim
        <+ (shrinkDataset "medium" D).tweetDiscussesClaim) := by
  have hsmall : shrinkDataset "small" D = shrinkWith 0.8 D := by
    unfold shrinkDataset
    rw [if_pos rfl]
  have hmedium : shrinkDataset "medium" D = shrinkWith 0.75 D := by
    unfold shrinkDataset
    rw [if_neg (by decide), if_pos rfl]
  refine ⟨shrinkWith_idem t D, ?_, ?_, ?_⟩
  · intro r
    show r ∈ D.tweetDiscussesClaim.filter (fun r => decide (t < r.relevance)) ↔ _
    rw [List.mem_filter]
    simp
  · intro hle
    exact ⟨survTweets_mono hle D, survClaims_mono hle D, survArticles_mono hle D,
      survUsers_mono hle D, survDiscusses_mono hle D, survArtDiscusses_mono hle D,
      survPosted_mono hle D, survMentions_mono hle D, survUserMentions_mono hle D⟩
  · rw [hsmall, hmedium]
    have hle : (0.75 : ℚ) ≤ 0.8 := by norm_num
    exact ⟨survTweets_mono hle D, survUsers_mono hle D, survDiscusses_mono hle D⟩

/-- C3 witness: the filter-algebra theorem applied at the concrete post-load
state `shrinkEx` and thresholds `1 ≥ 0`: idempotence at `0.8`, and the
`1`-filtered tweet table is a sublist of the `0`-filtered one. -/
theorem C3_filter_algebra_witness :
    (0 : ℚ) ≤ 1 ∧
    shrinkWith 0.8 (shrinkWith 0.8 shrinkEx) = shrinkWith 0.8 shrinkEx ∧
    (shrinkWith 1 shrinkEx).tweets <+ (shrinkWith 0 shrinkEx).tweets :=
  ⟨by norm_num,
   (C3_filter_algebra shrinkEx 0.8 1 0).1,
   ((C3_filter_algebra shrinkEx 0.8 1 0).2.2.1 (by norm_num)).1⟩

/-- C10: during subgraph filtering, a user row is retained if and only if it
was in the user table and its natural ID occurs among the sources of the
surviving user-posted-tweet relation **or** among the targets of the
surviving tweet-mentions-user relation — the union of the two conditions,
for every input dataset and threshold.  The concrete conjuncts exhibit a
mention-only user (ID 6) that is retained although it posted nothing, so
the intersection reading is refuted. -/
theorem C10_user_retention_union :
    (∀ (D : ShrinkState) (t : ℚ) (u : UserNode),
      u ∈ (shrinkWith t D).users ↔
        u ∈ D.users ∧
          (u.user_id ∈ (survPosted t D).map KeyRel.src ∨
           u.user_id ∈ (survMentions t D).map KeyRel.tgt)) ∧
    (⟨6⟩ : UserNode) ∈ (shrinkWith 0.8 shrinkExMention).users ∧
    (6 : Nat) ∉ (survPosted 0.8 shrinkExMention).map KeyRel.src := by
  have e1 : survDiscusses 0.8 shrinkExMention = [⟨1, 10, 0.9⟩] := by
    norm_num [survDiscusses, shrinkExMention, List.filter]
  have e2 : survTweets 0.8 shrinkExMention = [⟨1⟩] := by
    unfold survTweets
    rw [e1]
    decide
  have e3 : survPosted 0.8 shrinkExMention = [⟨5, 1⟩] := by
    unfold survPosted
    rw [e2]
    decide
  have e4 : survMentions 0.8 shrinkExMention = [⟨1, 6⟩] := by
    unfold survMentions
    rw [e2]
    decide
  have e5 : survUsers 0.8 shrinkExMention = [⟨5⟩, ⟨6⟩] := by
    unfold survUsers
    rw [e3, e4]
    decide
  refine ⟨?_, ?_, ?_⟩
  · intro D t u
    show u ∈ D.users.filter _ ↔ _
    rw [List.mem_filter]
    simp
  · show (⟨6⟩ : UserNode) ∈ survUsers 0.8 shrinkExMention
    rw [e5]
    decide
  · rw [e3]
    decide

theorem processArticleUrl_isSome (url : String) (o : FetchOutcome) :
    (processArticleUrl url o).isSome = articleSuccess (url, o) := by
  cases o with
  | timeout => rfl
  | failure => rfl
  | parsed title text authors pd ti =>
    show (processArticleUrl url (FetchOutcome.parsed title text authors pd ti)).isSome = _
    unfold processArticleUrl articleSuccess
    by_cases h1 : title = ""
    · simp [h1]
    · by_cases h2 : pyStrip text = ""
      · simp [h1, h2]
      · simp [h1, h2]

theorem extractArticles_length (batch : List (String × FetchOutcome)) :
    (extractArticles batch).length = batch.countP articleSuccess := by
  induction batch with
  | nil => rfl
  | cons p ps ih =>
    rw [List.countP_cons]
    have hps : articleSuccess p = (processArticleUrl p.1 p.2).isSome :=
      (processArticleUrl_isSome p.1 p.2).symm
    show ((match processArticleUrl p.1 p.2 with
          | some r => [r]
          | none => []) ++ extractArticles ps).length = _
    cases ho : processArticleUrl p.1 p.2 with
    | none => simp [ih, hps, ho]
    | some r => simp [ih, hps, ho]

/-- C6: per-item enrichment tolerance.  A timed-out download, a raised fetch
or parse error, an empty extracted title, or an empty stripped body each
make `process_article_url` return `None` (no record, no retry, no exception
escapes — the function is total); consequently the batch loop of
`_extract_articles` produces exactly one record per successful item, and a
batch of 5 URLs with 2 timeouts and 3 successes yields exactly 3 records. -/
theorem C6_enrichment_tolerance :
    (∀ url, processArticleUrl url FetchOutcome.timeout = none) ∧
    (∀ url, processArticleUrl url FetchOutcome.failure = none) ∧
    (∀ url authors pd ti text,
      processArticleUrl url (FetchOutcome.parsed "" text authors pd ti) = none) ∧
    (∀ url o, (processArticleUrl url o).isSome = articleSuccess (url, o)) ∧
    (∀ batch, (extractArticles batch).length = batch.countP articleSuccess) ∧
    (extractArticles
      [("u1", FetchOutcome.parsed "t1" "b1" [] none none),
       ("u2", FetchOutcome.timeout),
       ("u3", FetchOutcome.parsed "t3" "b3" [] none none),
       ("u4", FetchOutcome.timeout),
       ("u5", FetchOutcome.parsed "t5" "b5" [] none none)]).length = 3 :=
  ⟨fun _ => rfl, fun _ => rfl, fun _ _ _ _ _ => rfl,
   processArticleUrl_isSome, extractArticles_length, by decide⟩

/-- C8: URL normalization in `process_article_url`.  The regex
`(\?.*"|\/$)` does strip a trailing slash, but it strips a query string
only when the query contains a literal double quote, so the spec's example
`http://x.com/a?b=1` is **not** normalized to `http://x.com/a`: the record
is keyed by the un-stripped URL.  The trailing-slash example and the
success record's shape behave as claimed. -/
theorem C8_url_normalization :
    stripUrl "http://x.com/a?b=1" = "http://x.com/a?b=1" ∧
    stripUrl "http://x.com/a/" = "http://x.com/a" ∧
    processArticleUrl "http://x.com/a?b=1"
        (FetchOutcome.parsed "Title" "Body" [] none none)
      = some ⟨"http://x.com/a?b=1", "Title", "Body", [], none, none⟩ ∧
    processArticleUrl "http://x.com/a/"
        (FetchOutcome.parsed "Title" "Body" [] none none)
      = some ⟨"http://x.com/a", "Title", "Body", [], none, none⟩ := by
  refine ⟨by decide, by decide, by decide, by decide⟩

/-- C9: the user-URL extraction does union the rows coming from the two
nested substructures (`entities.url.urls` then `entities.description.urls`,
here resolving to url positions 1 and 2), but line 738 stores that union
under the key `('tweet', 'has_url', 'url')` — overwriting the previously
derived tweet-has_url table (which held `[(7, 0)]`) and creating no
`('user', 'has_url', 'url')` entry at all.  This contradicts the claim that
the table is stored under the user triple and that every other triple's
table is left unchanged. -/
theorem C9_user_url_clobbers :
    extractUserUrls true true true
        [⟨some [⟨some "uu", none⟩], some [⟨some "du", none⟩]⟩]
        [some "tu", some "uu", some "du"] relsEx ("tweet", "has_url", "url")
      = some [⟨0, 1⟩, ⟨0, 2⟩] ∧
    extractUserUrls true true true
        [⟨some [⟨some "uu", none⟩], some [⟨some "du", none⟩]⟩]
        [some "tu", some "uu", some "du"] relsEx ("user", "has_url", "url")
      = none ∧
    relsEx ("tweet", "has_url", "url") = some [⟨7, 0⟩] :=
  ⟨by decide, by decide, by decide⟩

/-- C7: `_extract_images` cannot run to completion: for every input state
and every list of successful worker records — in particular when every
individual item failed or none did — the stage raises
`NameError: name rel is not defined` at line 926, because the final
user-profile-picture block references two names that are never bound.  This
contradicts the claim that, absent pool-level faults, the stage completes
and merges its records (the failure is not a pool-level fault: it occurs
after the pool has drained). -/
theorem C7_extract_images_raises (st : ImageState)
    (imageResults : List ImageRecord) :
    extractImages true st imageResults
      = Except.error "NameError: name rel is not defined" := rfl

end Mumin
